import Mathlib

/-!
Shallow embedding of `src/main.rs` of the merge-dependabot tool.

Conventions of the embedding:
  - Remote side effects (GitHub API calls) are modelled as a trace of
    `PlatformCall` values returned by the functions; fallible calls are
    driven by boolean oracles collected in `Env` (one oracle per kind of
    mutating call, indexed by PR number).
  - Rust `Result<_, Box<dyn Error>>` becomes `Except Unit _`; the `?`
    operator becomes explicit propagation of `Except.error`.
  - Rust `String::contains(char)` is modelled on the char list of the
    string (`containsChar`), Rust `str::split(char)` as `splitChar`.
-/

/-- Mirrors struct `Config` (src/main.rs lines 14-18): `github_token` and
`repos`, the ordered list of `"org/repo"` strings. -/
structure Config where
  github_token : String
  repos : List String
  deriving Repr, DecidableEq

/-- Mirrors struct `Repo` (src/main.rs lines 20-24). -/
structure Repo where
  org : String
  repo : String
  deriving Repr, DecidableEq

/-- Mirrors struct `DependabotPr` (src/main.rs lines 26-38). -/
structure DependabotPr where
  url : String
  number : Nat
  repo : Repo
  all_checks_pass : Bool
  rebased : Bool
  rebase_in_progress : Bool
  new_version : String
  deriving Repr, DecidableEq

/-- One remote mutating call issued by the planner: the review-approval
POST, the merge PUT (issued even when the remote rejects it), or the
rebase-request comment. -/
inductive PlatformCall where
  | approve (org repo : String) (number : Nat)
  | mergeCall (org repo : String) (number : Nat)
  | comment (org repo : String) (number : Nat) (body : String)
  deriving Repr, DecidableEq

/-- Oracles deciding whether each remote mutating call succeeds, indexed
by PR number.  In the source an approval or comment failure propagates as
an error via `?`, while a merge failure is swallowed
(src/main.rs lines 115, 122-126, 94). -/
structure Env where
  approveOk : Nat → Bool
  mergeOk : Nat → Bool
  commentOk : Nat → Bool

/-- Environment in which every remote mutating call succeeds. -/
def envAllOk : Env := ⟨fun _ => true, fun _ => true, fun _ => true⟩

/-- Rust `String::contains(char)` (used at src/main.rs line 81),
modelled on the string's character list. -/
def containsChar (s : String) (c : Char) : Bool :=
  s.data.contains c

/-- Body of the rebase-request comment (src/main.rs line 93). -/
def rebaseCommandBody : String := "@dependabot rebase"

/-- Mirrors `maybe_merge_one` (src/main.rs lines 100-132): find the first
PR with `all_checks_pass && rebased`; if found, approve it (a failure of
the approval propagates as an error), then attempt the merge; a merge
failure is logged and yields `none` ("no PR merged") instead of an error.
Returns the merged PR (if any) together with the trace of calls issued. -/
def maybe_merge_one (env : Env) (prs : List DependabotPr) :
    Except Unit (Option DependabotPr × List PlatformCall) :=
  match prs.find? (fun pr => pr.all_checks_pass && pr.rebased) with
  | some pr =>
    if env.approveOk pr.number then
      let calls := [PlatformCall.approve pr.repo.org pr.repo.repo pr.number,
                    PlatformCall.mergeCall pr.repo.org pr.repo.repo pr.number]
      if env.mergeOk pr.number then Except.ok (some pr, calls)
      else Except.ok (none, calls)
    else Except.error ()
  | none => Except.ok (none, [])

/-- Mirrors `check_prs` (src/main.rs lines 63-98) given the classified PR
list `prs` returned by the scan: early return when the list is empty; the
rebase-in-progress safety gate (checked on the UNFILTERED list, line 70);
the pre-release `+` filter (lines 79-82); the merge attempt; then the
rebase-candidate selection (lines 84-88), which excludes the just-merged
PR by comparing `url` fields, and the rebase-request comment (lines
90-95, a comment failure propagates as an error). -/
def check_prs (env : Env) (prs : List DependabotPr) :
    Except Unit (List PlatformCall) :=
  if prs.isEmpty then Except.ok []
  else if prs.any (fun pr => pr.rebase_in_progress) then Except.ok []
  else
    let prs2 := prs.filter (fun pr => !(containsChar pr.new_version '+'))
    match maybe_merge_one env prs2 with
    | Except.error e => Except.error e
    | Except.ok (merged?, calls) =>
      let maybe_rebase : Option DependabotPr :=
        match merged? with
        | some merged => prs2.find? (fun pr => pr.url != merged.url && !pr.rebased)
        | none => prs2.find? (fun pr => !pr.rebased)
      match maybe_rebase with
      | some r =>
        if env.commentOk r.number then
          Except.ok (calls ++
            [PlatformCall.comment r.repo.org r.repo.repo r.number rebaseCommandBody])
        else Except.error ()
      | none => Except.ok calls

/-- Modelled from the spec (section 4.4): the Action Planner variant in
the ORDER THE SPEC STATES, namely the pre-release `+` filter first, then
the rebase-in-progress safety gate over the REMAINING PRs.  Kept only to
compare against `check_prs`, whose source applies the safety gate before
the filter. -/
def check_prs_spec_order (env : Env) (prs : List DependabotPr) :
    Except Unit (List PlatformCall) :=
  if prs.isEmpty then Except.ok []
  else
    let prs2 := prs.filter (fun pr => !(containsChar pr.new_version '+'))
    if prs2.any (fun pr => pr.rebase_in_progress) then Except.ok []
    else
      match maybe_merge_one env prs2 with
      | Except.error e => Except.error e
      | Except.ok (merged?, calls) =>
        let maybe_rebase : Option DependabotPr :=
          match merged? with
          | some merged => prs2.find? (fun pr => pr.url != merged.url && !pr.rebased)
          | none => prs2.find? (fun pr => !pr.rebased)
        match maybe_rebase with
        | some r =>
          if env.commentOk r.number then
            Except.ok (calls ++
              [PlatformCall.comment r.repo.org r.repo.repo r.number rebaseCommandBody])
          else Except.error ()
        | none => Except.ok calls

/-- One check run, keeping the only field the classifier inspects
(src/main.rs lines 175-178): its `conclusion`, absent when the run has
not concluded. -/
structure CheckRun where
  conclusion : Option String
  deriving Repr, DecidableEq

/-- Conclusion string the classifier treats as blocking. -/
def failureConclusion : String := "failure"

/-- Mirrors the `all_checks_pass` computation (src/main.rs lines 175-178):
every check run's conclusion differs from `Some("failure")`. -/
def all_checks_pass (checks : List CheckRun) : Bool :=
  checks.all (fun c => c.conclusion != some failureConclusion)

/-- Mirrors the `url` field construction (src/main.rs lines 184-187):
`html_url.map(to_string).unwrap_or("")` — the empty string when the
platform supplies no display URL. -/
def url_from_html (h : Option String) : String :=
  match h with
  | some u => u
  | none => ""

/-- Rust `str::split(sep)` on the character list: `splitChar sep cs` is
the list of separator-delimited groups; it is never empty (splitting the
empty string yields one empty group, as in Rust). -/
def splitChar (sep : Char) : List Char → List (List Char)
  | [] => [[]]
  | c :: rest =>
    if c == sep then [] :: splitChar sep rest
    else
      match splitChar sep rest with
      | g :: gs => (c :: g) :: gs
      | [] => [[c]]

/-- Mirrors the `"org/repo"` splitting at the top of
`dependabot_prs_passing_checks` (src/main.rs lines 138-140):
`repo.split('/')` followed by two `next().unwrap()` calls.  The second
`unwrap` panics when the string holds no `/`; the panic is modelled as
`none`. -/
def split_repo_string (s : String) : Option Repo :=
  match splitChar '/' s.data with
  | org :: rest :: _ => some { org := String.mk org, repo := String.mk rest }
  | _ => none

/-!
Version extractor (`parse_version_from_pr`, src/main.rs lines 208-212).
The source applies the regex
`to (\d+\.\d+\.\d+(-[a-zA-Z0-9\.]+)?(a0)?(\+[a-zA-Z0-9\.]+)?)` and returns
capture group 1 of the first (leftmost) match, or `None`.  The regex is
embedded as a deterministic matcher: each `X+` run is matched by maximal
munch, which coincides with the regex engine's greedy leftmost-first
semantics for this pattern because each repeated class cannot contain the
character that must follow it, and nothing mandatory follows the three
optional groups.  `\d` is modelled as the ASCII digits. -/

/-- Character class `[a-zA-Z0-9\.]` of the regex. -/
def verChar (c : Char) : Bool :=
  c.isAlphanum || c == '.'

/-- Match one-or-more characters of class `p` (maximal munch); yields the
matched run and the rest, or `none` when the first character already
fails. -/
def classRun (p : Char → Bool) (cs : List Char) : Option (List Char × List Char) :=
  let ds := cs.takeWhile p
  if ds.isEmpty then none else some (ds, cs.drop ds.length)

/-- Match the version part of the regex, capture group 1:
`\d+\.\d+\.\d+(-[a-zA-Z0-9\.]+)?(a0)?(\+[a-zA-Z0-9\.]+)?`.  Yields the
captured characters and the rest of the input. -/
def matchVersion (cs : List Char) : Option (List Char × List Char) :=
  match classRun (fun c => c.isDigit) cs with
  | none => none
  | some (d1, r1) =>
    match r1 with
    | '.' :: r2 =>
      match classRun (fun c => c.isDigit) r2 with
      | none => none
      | some (d2, r3) =>
        match r3 with
        | '.' :: r4 =>
          match classRun (fun c => c.isDigit) r4 with
          | none => none
          | some (d3, r5) =>
            let g2 : List Char × List Char :=
              match r5 with
              | '-' :: rest =>
                match classRun verChar rest with
                | some (xs, r) => ('-' :: xs, r)
                | none => ([], '-' :: rest)
              | _ => ([], r5)
            let g3 : List Char × List Char :=
              match g2.2 with
              | 'a' :: '0' :: rest => (['a', '0'], rest)
              | _ => ([], g2.2)
            let g4 : List Char × List Char :=
              match g3.2 with
              | '+' :: rest =>
                match classRun verChar rest with
                | some (xs, r) => ('+' :: xs, r)
                | none => ([], '+' :: rest)
              | _ => ([], g3.2)
            some (d1 ++ '.' :: d2 ++ '.' :: d3 ++ g2.1 ++ g3.1 ++ g4.1, g4.2)
        | _ => none
    | _ => none

/-- Match the whole regex at the START of `cs`: the literal `to ` then
the version; yields capture group 1 as a string. -/
def matchTo (cs : List Char) : Option String :=
  match cs with
  | 't' :: 'o' :: ' ' :: rest => (matchVersion rest).map (fun p => String.mk p.1)
  | _ => none

/-- Scan the character positions left to right and return the first
position's match — the regex engine's leftmost-match rule. -/
def findFirstMatch : List Char → Option String
  | [] => none
  | c :: rest =>
    match matchTo (c :: rest) with
    | some v => some v
    | none => findFirstMatch rest

/-- Mirrors `parse_version_from_pr` (src/main.rs lines 208-212). -/
def parse_version_from_pr (title : String) : Option String :=
  findFirstMatch title.data

/-!
Run orchestrator (`main`, src/main.rs lines 43-61), with the fallible
startup steps (logger init, config read, config parse, client build) and
the per-repository outcome of `check_prs` modelled as oracles.  The value
returned for a successful run is the per-repository trace: each
configured repository paired with `true` when its `check_prs` succeeded
and `false` when its error was caught and logged. -/

/-- Oracles for `main`'s fallible steps. -/
structure MainEnv where
  initLogger : Except Unit Unit
  readConfigFile : Except Unit String
  parseConfig : String → Except Unit Config
  buildClient : Except Unit Unit
  repoResult : String → Except Unit Unit

/-- Mirrors `main` (src/main.rs lines 43-61): the four startup steps
abort the run via `?`; then every configured repository is processed in
order, a per-repository error being caught and logged (`false` in the
trace) without stopping the loop; the function then returns success. -/
def mainRun (env : MainEnv) : Except Unit (List (String × Bool)) :=
  match env.initLogger with
  | Except.error e => Except.error e
  | Except.ok _ =>
    match env.readConfigFile with
    | Except.error e => Except.error e
    | Except.ok cfgStr =>
      match env.parseConfig cfgStr with
      | Except.error e => Except.error e
      | Except.ok cfg =>
        match env.buildClient with
        | Except.error e => Except.error e
        | Except.ok _ =>
          Except.ok (cfg.repos.map (fun r =>
            (r, match env.repoResult r with
                | Except.ok _ => true
                | Except.error _ => false)))

/-- Target PR number of a platform call. -/
def callNumber : PlatformCall → Nat
  | PlatformCall.approve _ _ n => n
  | PlatformCall.mergeCall _ _ n => n
  | PlatformCall.comment _ _ n _ => n

/-!  Helper lemmas (shared across the claim theorems). -/

lemma find?_first_past_failures {α : Type} (f : α → Bool) (l1 l2 : List α) (a : α)
    (h1 : ∀ p ∈ l1, f p = false) (h2 : f a = true) :
    List.find? f (l1 ++ a :: l2) = some a := by
  induction l1 with
  | nil =>
    simpa using List.find?_cons_of_pos l2 h2
  | cons b t ih =>
    have hb : f b = false := h1 b (List.mem_cons_self b t)
    have : List.find? f ((b :: t) ++ a :: l2) = List.find? f (t ++ a :: l2) := by
      simpa using List.find?_cons_of_neg (t ++ a :: l2) (by simp [hb])
    rw [this]
    exact ih (fun p hp => h1 p (List.mem_cons_of_mem b hp))

lemma maybe_merge_one_of_find (env : Env) (l : List DependabotPr) (m : DependabotPr)
    (hfind : l.find? (fun pr => pr.all_checks_pass && pr.rebased) = some m)
    (ha : env.approveOk m.number = true) :
    maybe_merge_one env l = Except.ok
      ((if env.mergeOk m.number then some m else none),
       [PlatformCall.approve m.repo.org m.repo.repo m.number,
        PlatformCall.mergeCall m.repo.org m.repo.repo m.number]) := by
  simp only [maybe_merge_one, hfind, ha, if_true]
  cases hm : env.mergeOk m.number <;> simp [hm]

lemma check_prs_shape_merged (env : Env) (prs : List DependabotPr) (m : DependabotPr)
    (hrip : prs.any (fun pr => pr.rebase_in_progress) = false)
    (hfind : (prs.filter (fun pr => !(containsChar pr.new_version '+'))).find?
        (fun pr => pr.all_checks_pass && pr.rebased) = some m)
    (ha : env.approveOk m.number = true)
    (hm : env.mergeOk m.number = true)
    (hc : ∀ n, env.commentOk n = true) :
    check_prs env prs = Except.ok
      ([PlatformCall.approve m.repo.org m.repo.repo m.number,
        PlatformCall.mergeCall m.repo.org m.repo.repo m.number] ++
        (match (prs.filter (fun pr => !(containsChar pr.new_version '+'))).find?
            (fun pr => pr.url != m.url && !pr.rebased) with
         | some r => [PlatformCall.comment r.repo.org r.repo.repo r.number rebaseCommandBody]
         | none => [])) := by
  have hmem : m ∈ prs := (List.mem_filter.mp (List.mem_of_find?_eq_some hfind)).1
  have hne : prs.isEmpty = false := by
    cases prs with
    | nil => cases hmem
    | cons a l => rfl
  have hmm := maybe_merge_one_of_find env _ m hfind ha
  rw [hm] at hmm
  simp only [if_true] at hmm
  simp only [check_prs, hne, hrip, Bool.false_eq_true, if_false, hmm]
  cases hr : (prs.filter (fun pr => !(containsChar pr.new_version '+'))).find?
      (fun pr => pr.url != m.url && !pr.rebased) with
  | none => simp
  | some r => simp [hc r.number]

lemma check_prs_shape_merge_failed (env : Env) (prs : List DependabotPr) (m : DependabotPr)
    (hrip : prs.any (fun pr => pr.rebase_in_progress) = false)
    (hfind : (prs.filter (fun pr => !(containsChar pr.new_version '+'))).find?
        (fun pr => pr.all_checks_pass && pr.rebased) = some m)
    (ha : env.approveOk m.number = true)
    (hm : env.mergeOk m.number = false)
    (hc : ∀ n, env.commentOk n = true) :
    check_prs env prs = Except.ok
      ([PlatformCall.approve m.repo.org m.repo.repo m.number,
        PlatformCall.mergeCall m.repo.org m.repo.repo m.number] ++
        (match (prs.filter (fun pr => !(containsChar pr.new_version '+'))).find?
            (fun pr => !pr.rebased) with
         | some r => [PlatformCall.comment r.repo.org r.repo.repo r.number rebaseCommandBody]
         | none => [])) := by
  have hmem : m ∈ prs := (List.mem_filter.mp (List.mem_of_find?_eq_some hfind)).1
  have hne : prs.isEmpty = false := by
    cases prs with
    | nil => cases hmem
    | cons a l => rfl
  have hmm := maybe_merge_one_of_find env _ m hfind ha
  rw [hm] at hmm
  simp only [Bool.false_eq_true, if_false] at hmm
  simp only [check_prs, hne, hrip, Bool.false_eq_true, if_false, hmm]
  cases hr : (prs.filter (fun pr => !(containsChar pr.new_version '+'))).find?
      (fun pr => !pr.rebased) with
  | none => simp
  | some r => simp [hc r.number]

lemma check_prs_shape_no_eligible (env : Env) (prs : List DependabotPr)
    (hrip : prs.any (fun pr => pr.rebase_in_progress) = false)
    (hfind : (prs.filter (fun pr => !(containsChar pr.new_version '+'))).find?
        (fun pr => pr.all_checks_pass && pr.rebased) = none)
    (hc : ∀ n, env.commentOk n = true) :
    check_prs env prs = Except.ok
      (match (prs.filter (fun pr => !(containsChar pr.new_version '+'))).find?
          (fun pr => !pr.rebased) with
       | some r => [PlatformCall.comment r.repo.org r.repo.repo r.number rebaseCommandBody]
       | none => []) := by
  cases prs with
  | nil => rfl
  | cons a l =>
    have hne : (a :: l).isEmpty = false := rfl
    have hmm : maybe_merge_one env
        ((a :: l).filter (fun pr => !(containsChar pr.new_version '+'))) =
        Except.ok (none, []) := by
      simp only [maybe_merge_one, hfind]
    simp only [check_prs, hne, hrip, Bool.false_eq_true, if_false, hmm]
    cases hr : ((a :: l).filter (fun pr => !(containsChar pr.new_version '+'))).find?
        (fun pr => !pr.rebased) with
    | none => simp
    | some r => simp [hc r.number]

lemma maybe_merge_one_ok_calls_sub (env : Env) (l : List DependabotPr)
    (m? : Option DependabotPr) (cs : List PlatformCall)
    (h : maybe_merge_one env l = Except.ok (m?, cs)) :
    ∀ c ∈ cs, ∃ p, p ∈ l ∧ callNumber c = p.number := by
  cases hf : l.find? (fun pr => pr.all_checks_pass && pr.rebased) with
  | none =>
    simp only [maybe_merge_one, hf, Except.ok.injEq, Prod.mk.injEq] at h
    obtain ⟨-, h2⟩ := h
    subst h2
    intro c hc
    exact absurd hc (List.not_mem_nil c)
  | some pr =>
    simp only [maybe_merge_one, hf] at h
    by_cases hap : env.approveOk pr.number = true
    · rw [if_pos hap] at h
      have hcs : cs = [PlatformCall.approve pr.repo.org pr.repo.repo pr.number,
          PlatformCall.mergeCall pr.repo.org pr.repo.repo pr.number] := by
        by_cases hmg : env.mergeOk pr.number = true
        · rw [if_pos hmg] at h
          simp only [Except.ok.injEq, Prod.mk.injEq] at h
          exact h.2.symm
        · rw [if_neg hmg] at h
          simp only [Except.ok.injEq, Prod.mk.injEq] at h
          exact h.2.symm
      subst hcs
      intro c hc
      have hmem : pr ∈ l := List.mem_of_find?_eq_some hf
      simp only [List.mem_cons, List.not_mem_nil, or_false] at hc
      rcases hc with hc | hc <;> subst hc <;> exact ⟨pr, hmem, rfl⟩
    · rw [if_neg hap] at h
      simp at h

lemma check_prs_ok_calls_sub (env : Env) (prs : List DependabotPr)
    (calls : List PlatformCall) (h : check_prs env prs = Except.ok calls) :
    ∀ c ∈ calls, ∃ p,
      p ∈ prs.filter (fun pr => !(containsChar pr.new_version '+')) ∧
      callNumber c = p.number := by
  simp only [check_prs] at h
  by_cases hE : prs.isEmpty = true
  · rw [if_pos hE] at h
    simp only [Except.ok.injEq] at h
    subst h
    intro c hc
    exact absurd hc (List.not_mem_nil c)
  · rw [if_neg hE] at h
    by_cases hA : prs.any (fun pr => pr.rebase_in_progress) = true
    · rw [if_pos hA] at h
      simp only [Except.ok.injEq] at h
      subst h
      intro c hc
      exact absurd hc (List.not_mem_nil c)
    · rw [if_neg hA] at h
      cases hmm : maybe_merge_one env
          (prs.filter (fun pr => !(containsChar pr.new_version '+'))) with
      | error e =>
        rw [hmm] at h
        simp at h
      | ok pcs =>
        obtain ⟨m?, cs⟩ := pcs
        rw [hmm] at h
        have hsub := maybe_merge_one_ok_calls_sub env _ m? cs hmm
        have hcomment : ∀ (r : DependabotPr),
            r ∈ prs.filter (fun pr => !(containsChar pr.new_version '+')) →
            ((if env.commentOk r.number = true then
              Except.ok (cs ++
                [PlatformCall.comment r.repo.org r.repo.repo r.number rebaseCommandBody])
             else Except.error ()) : Except Unit (List PlatformCall)) = Except.ok calls →
            ∀ c ∈ calls, ∃ p,
              p ∈ prs.filter (fun pr => !(containsChar pr.new_version '+')) ∧
              callNumber c = p.number := by
          intro r hrmem hif c hc
          by_cases hcm : env.commentOk r.number = true
          · rw [if_pos hcm] at hif
            simp only [Except.ok.injEq] at hif
            subst hif
            rcases List.mem_append.mp hc with hc1 | hc2
            · exact hsub c hc1
            · have hce : c = PlatformCall.comment r.repo.org r.repo.repo r.number
                  rebaseCommandBody := by simpa using hc2
              subst hce
              exact ⟨r, hrmem, rfl⟩
          · rw [if_neg hcm] at hif
            simp at hif
        cases m? with
        | some merged =>
          cases hr : (prs.filter (fun pr => !(containsChar pr.new_version '+'))).find?
              (fun pr => pr.url != merged.url && !pr.rebased) with
          | none =>
            simp only [hr] at h
            simp only [Except.ok.injEq] at h
            subst h
            exact hsub
          | some r =>
            simp only [hr] at h
            exact hcomment r (List.mem_of_find?_eq_some hr) h
        | none =>
          cases hr : (prs.filter (fun pr => !(containsChar pr.new_version '+'))).find?
              (fun pr => !pr.rebased) with
          | none =>
            simp only [hr] at h
            simp only [Except.ok.injEq] at h
            subst h
            exact hsub
          | some r =>
            simp only [hr] at h
            exact hcomment r (List.mem_of_find?_eq_some hr) h

lemma matchTo_nil : matchTo [] = none := rfl

lemma findFirstMatch_eq_none_iff (cs : List Char) :
    findFirstMatch cs = none ↔ ∀ i, matchTo (cs.drop i) = none := by
  induction cs with
  | nil =>
    simp [findFirstMatch, List.drop_nil, matchTo_nil]
  | cons c rest ih =>
    cases hm : matchTo (c :: rest) with
    | some v =>
      simp only [findFirstMatch, hm]
      constructor
      · intro hc
        exact absurd hc (by simp)
      · intro hall
        have := hall 0
        rw [List.drop_zero, hm] at this
        exact absurd this (by simp)
    | none =>
      simp only [findFirstMatch, hm]
      rw [ih]
      constructor
      · intro hall i
        cases i with
        | zero => simpa using hm
        | succ j => simpa using hall j
      · intro hall i
        simpa using hall (i + 1)

lemma findFirstMatch_first (cs : List Char) (i : Nat) (v : String)
    (hv : matchTo (cs.drop i) = some v)
    (hbefore : ∀ j, j < i → matchTo (cs.drop j) = none) :
    findFirstMatch cs = some v := by
  induction cs generalizing i with
  | nil =>
    rw [List.drop_nil, matchTo_nil] at hv
    exact absurd hv (by simp)
  | cons c rest ih =>
    cases i with
    | zero =>
      rw [List.drop_zero] at hv
      simp [findFirstMatch, hv]
    | succ j =>
      have h0 : matchTo (c :: rest) = none := by
        simpa using hbefore 0 (Nat.succ_pos j)
      simp only [findFirstMatch, h0]
      exact ih j (by simpa using hv)
        (fun k hk => by simpa using hbefore (k + 1) (Nat.succ_lt_succ hk))

lemma splitChar_ne_nil (sep : Char) (cs : List Char) : splitChar sep cs ≠ [] := by
  induction cs with
  | nil => simp [splitChar]
  | cons c rest ih =>
    by_cases h : (c == sep) = true
    · simp [splitChar, h]
    · rw [splitChar, if_neg h]
      cases hs : splitChar sep rest with
      | nil => simp
      | cons g gs => simp

lemma two_le_splitChar_length_iff (sep : Char) (cs : List Char) :
    2 ≤ (splitChar sep cs).length ↔ sep ∈ cs := by
  induction cs with
  | nil => simp [splitChar]
  | cons c rest ih =>
    by_cases h : (c == sep) = true
    · have hce : c = sep := eq_of_beq h
      subst hce
      have hlen : 1 ≤ (splitChar c rest).length :=
        List.length_pos.mpr (splitChar_ne_nil c rest)
      have hL : 2 ≤ (splitChar c (c :: rest)).length := by
        rw [splitChar, if_pos (by simp)]
        simp only [List.length_cons]
        omega
      simp [hL, List.mem_cons]
    · have hcne : ¬(sep = c) := fun he => h (by simp [he])
      cases hs : splitChar sep rest with
      | nil => exact absurd hs (splitChar_ne_nil sep rest)
      | cons g gs =>
        have heq : splitChar sep (c :: rest) = (c :: g) :: gs := by
          rw [splitChar, if_neg h, hs]
        rw [heq]
        rw [hs] at ih
        simp only [List.length_cons] at ih ⊢
        rw [List.mem_cons]
        constructor
        · intro hl
          exact Or.inr (ih.mp hl)
        · intro hm
          rcases hm with hm | hm
          · exact absurd hm hcne
          · exact ih.mpr hm

/-!  Concrete PR fixtures used by counterexamples and witnesses. -/

/-- Rebase-in-progress PR whose target version carries build metadata. -/
def c1Blocked : DependabotPr :=
  { url := "u1", number := 1, repo := { org := "o", repo := "r" },
    all_checks_pass := true, rebased := true, rebase_in_progress := true,
    new_version := "1.0.0+build" }

/-- Merge-ready PR with a plain target version. -/
def c1Ready : DependabotPr :=
  { url := "u2", number := 2, repo := { org := "o", repo := "r" },
    all_checks_pass := true, rebased := true, rebase_in_progress := false,
    new_version := "1.0.1" }

/-- First merge-eligible PR of the C2 witness. -/
def c2First : DependabotPr :=
  { url := "a", number := 10, repo := { org := "o", repo := "r" },
    all_checks_pass := true, rebased := true, rebase_in_progress := false,
    new_version := "2.0.0" }

/-- Second merge-eligible PR of the C2 witness. -/
def c2Second : DependabotPr :=
  { url := "b", number := 11, repo := { org := "o", repo := "r" },
    all_checks_pass := true, rebased := true, rebase_in_progress := false,
    new_version := "2.0.1" }

/-- Merge-eligible PR whose display URL is empty (the platform supplied
none). -/
def c3Merged : DependabotPr :=
  { url := "", number := 1, repo := { org := "o", repo := "r" },
    all_checks_pass := true, rebased := true, rebase_in_progress := false,
    new_version := "1.0.1" }

/-- Unrebased PR, distinct from `c3Merged` by number, whose display URL
is also empty. -/
def c3Skipped : DependabotPr :=
  { url := "", number := 2, repo := { org := "o", repo := "r" },
    all_checks_pass := false, rebased := false, rebase_in_progress := false,
    new_version := "1.0.2" }

/-- Unrebased PR with a distinct, non-empty display URL. -/
def c3Other : DependabotPr :=
  { url := "x", number := 3, repo := { org := "o", repo := "r" },
    all_checks_pass := false, rebased := false, rebase_in_progress := false,
    new_version := "1.0.3" }

/-- Environment in which the merge call is rejected by the remote but
approvals and comments succeed. -/
def envMergeFails : Env := ⟨fun _ => true, fun _ => false, fun _ => true⟩

/-- Merge-eligible PR of the C4 witness. -/
def c4A : DependabotPr :=
  { url := "a4", number := 1, repo := { org := "o", repo := "r" },
    all_checks_pass := true, rebased := true, rebase_in_progress := false,
    new_version := "4.0.0" }

/-- Unrebased PR of the C4 witness. -/
def c4B : DependabotPr :=
  { url := "b4", number := 2, repo := { org := "o", repo := "r" },
    all_checks_pass := true, rebased := false, rebase_in_progress := false,
    new_version := "4.0.1" }

/-- Pre-release PR (target version carries `+`) of the C5 witness. -/
def c5Plus : DependabotPr :=
  { url := "p", number := 7, repo := { org := "o", repo := "r" },
    all_checks_pass := true, rebased := true, rebase_in_progress := false,
    new_version := "1.0.0+b" }

/-- Clean merge-eligible PR of the C5 witness. -/
def c5Clean : DependabotPr :=
  { url := "q", number := 8, repo := { org := "o", repo := "r" },
    all_checks_pass := true, rebased := true, rebase_in_progress := false,
    new_version := "1.0.1" }

/-!  Claim theorems. -/

/-- C1, counterexample: at a two-PR list whose only rebase-in-progress PR
carries a `+` target version, the code (`check_prs`) takes no action at
all, while the spec's stated order (`check_prs_spec_order`, filter before
safety gate) would merge the other PR.  The claim that the filter is
applied first, and that such a PR does not suppress actions on the
others, is therefore false of the code. -/
theorem safety_gate_order_cex :
    containsChar c1Blocked.new_version '+' = true ∧
    c1Blocked.rebase_in_progress = true ∧
    c1Ready.rebase_in_progress = false ∧
    check_prs envAllOk [c1Blocked, c1Ready] = Except.ok [] ∧
    check_prs_spec_order envAllOk [c1Blocked, c1Ready] =
      Except.ok [PlatformCall.approve ("o") ("r") 2,
                 PlatformCall.mergeCall ("o") ("r") 2] :=
  ⟨rfl, rfl, rfl, rfl, rfl⟩

/-- C1 (amended): the safety gate is applied FIRST, over the whole
unfiltered scanned list — whenever any scanned PR (pre-release or not)
has `rebase_in_progress = true`, `check_prs` takes no action at all this
run; the pre-release filter runs only afterwards. -/
theorem safety_gate_first_on_unfiltered (env : Env) (prs : List DependabotPr)
    (h : prs.any (fun pr => pr.rebase_in_progress) = true) :
    check_prs env prs = Except.ok [] := by
  have hne : prs.isEmpty = false := by
    cases prs with
    | nil => simp at h
    | cons a l => rfl
  simp [check_prs, hne, h]

/-- C1, witness for the amended theorem at a concrete input. -/
theorem safety_gate_first_on_unfiltered_wit :
    check_prs envAllOk [c1Blocked, c1Ready] = Except.ok [] :=
  safety_gate_first_on_unfiltered envAllOk [c1Blocked, c1Ready] rfl

/-- C2: `maybe_merge_one` approves and then attempts to merge exactly the
first PR in list order with `all_checks_pass = true` and `rebased = true`
(the PRs before it all being ineligible); the call trace holds exactly the
approval followed by the merge call on that PR, so no merge or approval is
issued for any later eligible PR in the list. -/
theorem merge_selects_first_eligible (env : Env) (l1 l2 : List DependabotPr)
    (pr : DependabotPr)
    (h1 : ∀ p ∈ l1, (p.all_checks_pass && p.rebased) = false)
    (h2 : (pr.all_checks_pass && pr.rebased) = true)
    (ha : env.approveOk pr.number = true) :
    maybe_merge_one env (l1 ++ pr :: l2) = Except.ok
      ((if env.mergeOk pr.number then some pr else none),
       [PlatformCall.approve pr.repo.org pr.repo.repo pr.number,
        PlatformCall.mergeCall pr.repo.org pr.repo.repo pr.number]) :=
  maybe_merge_one_of_find env _ pr
    (find?_first_past_failures _ l1 l2 pr h1 h2) ha

/-- C2, witness: with two eligible PRs, only the first receives the
approval and merge calls. -/
theorem merge_selects_first_eligible_wit :
    maybe_merge_one envAllOk [c2First, c2Second] = Except.ok
      (some c2First,
       [PlatformCall.approve ("o") ("r") 10, PlatformCall.mergeCall ("o") ("r") 10]) :=
  merge_selects_first_eligible envAllOk [] [c2Second] c2First
    (fun p hp => absurd hp (List.not_mem_nil p)) rfl rfl

/-- C3, counterexample: `c3Skipped` is an unrebased PR distinct (by
number) from the just-merged `c3Merged`, so by the claim it should be
selected and receive a rebase-request comment; but both PRs carry the
empty display URL, and the code excludes by URL equality, so `check_prs`
issues no comment at all. -/
theorem rebase_exclusion_cex :
    c3Skipped.rebased = false ∧
    c3Skipped.number ≠ c3Merged.number ∧
    c3Skipped.url = c3Merged.url ∧
    check_prs envAllOk [c3Merged, c3Skipped] =
      Except.ok [PlatformCall.approve ("o") ("r") 1,
                 PlatformCall.mergeCall ("o") ("r") 1] :=
  ⟨rfl, by decide, rfl, rfl⟩

/-- C3 (amended): when a PR `m` is merged, the rebase step selects the
first PR in list order (over the filtered list) with `rebased = false`
whose URL string differs from the merged PR's URL, and posts the rebase
comment on it; any PR selected this way has a URL different from `m`'s,
so in particular the just-merged PR itself never receives a rebase
comment; when no PR was merge-eligible, the first PR with
`rebased = false` is selected. -/
theorem rebase_exclusion_by_url (env : Env) (prs : List DependabotPr)
    (m : DependabotPr)
    (hrip : prs.any (fun pr => pr.rebase_in_progress) = false)
    (hc : ∀ n, env.commentOk n = true) :
    ((prs.filter (fun pr => !(containsChar pr.new_version '+'))).find?
        (fun pr => pr.all_checks_pass && pr.rebased) = some m →
     env.approveOk m.number = true → env.mergeOk m.number = true →
     check_prs env prs = Except.ok
       ([PlatformCall.approve m.repo.org m.repo.repo m.number,
         PlatformCall.mergeCall m.repo.org m.repo.repo m.number] ++
         (match (prs.filter (fun pr => !(containsChar pr.new_version '+'))).find?
             (fun pr => pr.url != m.url && !pr.rebased) with
          | some r => [PlatformCall.comment r.repo.org r.repo.repo r.number rebaseCommandBody]
          | none => [])))
    ∧ (∀ (l : List DependabotPr) (r : DependabotPr),
        l.find? (fun pr => pr.url != m.url && !pr.rebased) = some r →
        r.url ≠ m.url ∧ r.rebased = false)
    ∧ ((prs.filter (fun pr => !(containsChar pr.new_version '+'))).find?
        (fun pr => pr.all_checks_pass && pr.rebased) = none →
       check_prs env prs = Except.ok
         (match (prs.filter (fun pr => !(containsChar pr.new_version '+'))).find?
             (fun pr => !pr.rebased) with
          | some r => [PlatformCall.comment r.repo.org r.repo.repo r.number rebaseCommandBody]
          | none => [])) := by
  refine ⟨fun hf ha hm => check_prs_shape_merged env prs m hrip hf ha hm hc,
    ?_, fun hf => check_prs_shape_no_eligible env prs hrip hf hc⟩
  intro l r hr
  have hpred := List.find?_some hr
  simp only [Bool.and_eq_true, bne_iff_ne, Bool.not_eq_true'] at hpred
  exact hpred

/-- C3, witness for the amended theorem: the merged PR and an unrebased
PR with a different URL; the comment lands on the latter. -/
theorem rebase_exclusion_by_url_wit :
    check_prs envAllOk [c3Merged, c3Other] =
      Except.ok [PlatformCall.approve ("o") ("r") 1,
                 PlatformCall.mergeCall ("o") ("r") 1,
                 PlatformCall.comment ("o") ("r") 3 rebaseCommandBody] :=
  (rebase_exclusion_by_url envAllOk [c3Merged, c3Other] c3Merged rfl
    (fun _ => rfl)).1 rfl rfl rfl

/-- C4: when the first merge-eligible PR `m` is approved successfully but
the remote rejects the merge call, `maybe_merge_one` yields the "no PR
merged" outcome (`none`) instead of an error, and `check_prs` still
succeeds in the same run, evaluating rebase candidates over the full
filtered list (first PR with `rebased = false`). -/
theorem merge_rejection_continues_to_rebase (env : Env)
    (prs : List DependabotPr) (m : DependabotPr)
    (hrip : prs.any (fun pr => pr.rebase_in_progress) = false)
    (hfind : (prs.filter (fun pr => !(containsChar pr.new_version '+'))).find?
        (fun pr => pr.all_checks_pass && pr.rebased) = some m)
    (ha : env.approveOk m.number = true)
    (hm : env.mergeOk m.number = false)
    (hc : ∀ n, env.commentOk n = true) :
    maybe_merge_one env (prs.filter (fun pr => !(containsChar pr.new_version '+'))) =
      Except.ok (none,
        [PlatformCall.approve m.repo.org m.repo.repo m.number,
         PlatformCall.mergeCall m.repo.org m.repo.repo m.number]) ∧
    check_prs env prs = Except.ok
      ([PlatformCall.approve m.repo.org m.repo.repo m.number,
        PlatformCall.mergeCall m.repo.org m.repo.repo m.number] ++
        (match (prs.filter (fun pr => !(containsChar pr.new_version '+'))).find?
            (fun pr => !pr.rebased) with
         | some r => [PlatformCall.comment r.repo.org r.repo.repo r.number rebaseCommandBody]
         | none => [])) := by
  constructor
  · have hmm := maybe_merge_one_of_find env _ m hfind ha
    rw [hm] at hmm
    simpa using hmm
  · exact check_prs_shape_merge_failed env prs m hrip hfind ha hm hc

/-- C4, witness: approval succeeds, merge is rejected, and the run still
posts a rebase comment on the unrebased PR. -/
theorem merge_rejection_continues_to_rebase_wit :
    check_prs envMergeFails [c4A, c4B] =
      Except.ok [PlatformCall.approve ("o") ("r") 1,
                 PlatformCall.mergeCall ("o") ("r") 1,
                 PlatformCall.comment ("o") ("r") 2 rebaseCommandBody] :=
  (merge_rejection_continues_to_rebase envMergeFails [c4A, c4B] c4A rfl rfl rfl rfl
    (fun _ => rfl)).2

/-- C5: every remote call `check_prs` issues targets a PR of the scanned
list whose target version does NOT contain `+` (pre-release PRs are
excluded from both merge and rebase candidacy), while a PR with an empty
target version (unparsable title) survives the filter and remains
eligible. -/
theorem prerelease_filter_excludes_plus (env : Env) (prs : List DependabotPr) :
    (∀ calls, check_prs env prs = Except.ok calls →
      ∀ c ∈ calls, ∃ p, p ∈ prs ∧ containsChar p.new_version '+' = false ∧
        callNumber c = p.number)
    ∧ (∀ p ∈ prs, p.new_version = "" →
        p ∈ prs.filter (fun pr => !(containsChar pr.new_version '+'))) := by
  constructor
  · intro calls h c hc
    obtain ⟨p, hp, hnum⟩ := check_prs_ok_calls_sub env prs calls h c hc
    have hpf := List.mem_filter.mp hp
    refine ⟨p, hpf.1, ?_, hnum⟩
    have h2 := hpf.2
    cases hcc : containsChar p.new_version '+' with
    | false => rfl
    | true => rw [hcc] at h2; exact absurd h2 (by simp)
  · intro p hp hempty
    rw [List.mem_filter]
    refine ⟨hp, ?_⟩
    rw [hempty]
    rfl

/-- C5, witness: with a `+` PR and a clean PR scanned, the approval call
issued targets the clean PR. -/
theorem prerelease_filter_excludes_plus_wit :
    ∃ p, p ∈ [c5Plus, c5Clean] ∧ containsChar p.new_version '+' = false ∧
      callNumber (PlatformCall.approve ("o") ("r") 8) = p.number :=
  (prerelease_filter_excludes_plus envAllOk [c5Plus, c5Clean]).1
    [PlatformCall.approve ("o") ("r") 8, PlatformCall.mergeCall ("o") ("r") 8] rfl
    (PlatformCall.approve ("o") ("r") 8) (List.mem_cons_self _ _)

/-- C6: `all_checks_pass` is true exactly when no check run's conclusion
is `Some("failure")`; an empty check-run set passes, a single `failure`
run fails, and a single `neutral` run (or one with an absent conclusion)
passes. -/
theorem checks_pass_iff_no_failure :
    (∀ checks : List CheckRun, all_checks_pass checks = true ↔
      ∀ c ∈ checks, c.conclusion ≠ some failureConclusion)
    ∧ all_checks_pass [] = true
    ∧ all_checks_pass [{ conclusion := some failureConclusion }] = false
    ∧ all_checks_pass [{ conclusion := some ("neutral") }] = true
    ∧ all_checks_pass [{ conclusion := none }] = true := by
  refine ⟨?_, rfl, rfl, rfl, rfl⟩
  intro checks
  simp [all_checks_pass, List.all_eq_true, bne_iff_ne]

/-- C6, witness: the empty check-run set passes, through the
characterization. -/
theorem checks_pass_iff_no_failure_wit : all_checks_pass [] = true :=
  (checks_pass_iff_no_failure.1 []).mpr (fun c hc => absurd hc (List.not_mem_nil c))

/-- C7: `parse_version_from_pr` returns the expected version strings on
the four documented titles; it returns `none` (never an error) exactly
when no suffix position matches the `to <version>` pattern; and whenever
some position matches while all earlier positions do not, the result is
that first match. -/
theorem version_extractor_matches :
    parse_version_from_pr ("Bump foo from 1.2.3 to 1.2.4") = some ("1.2.4")
    ∧ parse_version_from_pr ("Bump foo from 1.2.3 to 1.2.4-alpha") =
        some ("1.2.4-alpha")
    ∧ parse_version_from_pr ("Bump foo from 1.2.3 to 1.2.4-alpha.1+build.1") =
        some ("1.2.4-alpha.1+build.1")
    ∧ parse_version_from_pr ("Bump foo from 1.2.3a0+201.fbdbcb12 to 1.2.3a0+210.bafdcd99") =
        some ("1.2.3a0+210.bafdcd99")
    ∧ (∀ title : String, parse_version_from_pr title = none ↔
        ∀ i, matchTo (title.data.drop i) = none)
    ∧ (∀ (title : String) (i : Nat) (v : String),
        matchTo (title.data.drop i) = some v →
        (∀ j, j < i → matchTo (title.data.drop j) = none) →
        parse_version_from_pr title = some v) := by
  refine ⟨by decide, by decide, by decide, by decide, ?_, ?_⟩
  · intro title
    exact findFirstMatch_eq_none_iff title.data
  · intro title i v hv hb
    exact findFirstMatch_first title.data i v hv hb

/-- C7, witness: the first-match clause applied at position 0 of a
concrete title. -/
theorem version_extractor_matches_wit :
    parse_version_from_pr ("to 1.2.3") = some ("1.2.3") :=
  version_extractor_matches.2.2.2.2.2 ("to 1.2.3") 0 ("1.2.3") (by decide)
    (fun j hj => absurd hj (Nat.not_lt_zero j))

/-- C8, counterexample: the configured string `"/repo"` has an empty
organization part, yet construction succeeds — refuting the claim that
construction fails whenever either part is empty. -/
theorem repo_split_empty_org_cex :
    split_repo_string ("/repo") = some { org := "", repo := "repo" } := by
  decide

/-- C8 (amended): splitting a configured string fails exactly when the
string contains no `/` separator (the second `next()` panics); when a `/`
is present the construction succeeds, empty parts included. -/
theorem repo_split_fails_iff_no_slash (s : String) :
    (split_repo_string s).isSome = true ↔ '/' ∈ s.data := by
  rw [← two_le_splitChar_length_iff '/' s.data]
  cases hs : splitChar '/' s.data with
  | nil => exact absurd hs (splitChar_ne_nil _ _)
  | cons a t =>
    cases t with
    | nil => simp [split_repo_string, hs]
    | cons b t2 =>
      simp only [split_repo_string, hs, Option.isSome_some, List.length_cons]
      constructor
      · intro
        omega
      · intro
        trivial

/-- C8, witness: a well-formed `"org/repo"` string constructs
successfully. -/
theorem repo_split_fails_iff_no_slash_wit :
    (split_repo_string ("a/b")).isSome = true :=
  (repo_split_fails_iff_no_slash ("a/b")).mpr (by decide)

/-- Orchestrator environment of the C9 witness: startup succeeds and the
second of three configured repositories fails at runtime. -/
def env9 : MainEnv :=
  { initLogger := Except.ok ()
    readConfigFile := Except.ok ("cfg")
    parseConfig := fun _ => Except.ok
      { github_token := "t", repos := ["good/one", "bad/two", "good/three"] }
    buildClient := Except.ok ()
    repoResult := fun r => if r == "bad/two" then Except.error () else Except.ok () }

/-- C9: when the startup steps succeed, `mainRun` processes every
configured repository in order and exits successfully whatever the
per-repository outcomes are (a failing repository is merely recorded as
logged, `false`, in the trace); and `mainRun` aborts with an error only
when one of the startup steps (logger, configuration read, configuration
parse, client build) fails. -/
theorem orchestrator_isolates_repo_failures (env : MainEnv) :
    (∀ (cfgStr : String) (cfg : Config), env.initLogger = Except.ok () →
      env.readConfigFile = Except.ok cfgStr →
      env.parseConfig cfgStr = Except.ok cfg →
      env.buildClient = Except.ok () →
      mainRun env = Except.ok (cfg.repos.map (fun r =>
        (r, match env.repoResult r with
            | Except.ok _ => true
            | Except.error _ => false))))
    ∧ (mainRun env = Except.error () →
        env.initLogger = Except.error () ∨ env.readConfigFile = Except.error () ∨
        (∃ cfgStr, env.readConfigFile = Except.ok cfgStr ∧
          env.parseConfig cfgStr = Except.error ()) ∨
        env.buildClient = Except.error ()) := by
  constructor
  · intro cfgStr cfg h1 h2 h3 h4
    simp [mainRun, h1, h2, h3, h4]
  · intro herr
    cases h1 : env.initLogger with
    | error e => cases e; exact Or.inl rfl
    | ok u =>
      cases u
      cases h2 : env.readConfigFile with
      | error e => cases e; exact Or.inr (Or.inl rfl)
      | ok cfgStr =>
        cases h3 : env.parseConfig cfgStr with
        | error e => cases e; exact Or.inr (Or.inr (Or.inl ⟨cfgStr, rfl, h3⟩))
        | ok cfg =>
          cases h4 : env.buildClient with
          | error e => cases e; exact Or.inr (Or.inr (Or.inr rfl))
          | ok u2 =>
            cases u2
            simp [mainRun, h1, h2, h3, h4] at herr

/-- C9, witness: three repositories, the middle one failing; all three
appear in order in the successful trace. -/
theorem orchestrator_isolates_repo_failures_wit :
    mainRun env9 = Except.ok
      [("good/one", true), ("bad/two", false), ("good/three", true)] :=
  (orchestrator_isolates_repo_failures env9).1 ("cfg")
    { github_token := "t", repos := ["good/one", "bad/two", "good/three"] }
    rfl rfl rfl rfl

/-- Merge-eligible PR with an empty display URL, for C10. -/
def c10Merged : DependabotPr :=
  { url := "", number := 21, repo := { org := "o", repo := "r" },
    all_checks_pass := true, rebased := true, rebase_in_progress := false,
    new_version := "3.0.0" }

/-- Non-merged, unrebased PR sharing the merged PR's empty URL, for
C10. -/
def c10SameUrl : DependabotPr :=
  { url := "", number := 22, repo := { org := "o", repo := "r" },
    all_checks_pass := false, rebased := false, rebase_in_progress := false,
    new_version := "3.0.1" }

/-- C10: the rebase exclusion compares PRs by their `url` strings —
`url_from_html` defaults to the empty string when the platform supplies
no display URL; no PR whose URL equals the merged PR's URL can be
selected as rebase candidate; and concretely, a non-merged unrebased PR
sharing the merged PR's (empty) URL receives no rebase comment even
though it was not merged. -/
theorem rebase_skip_same_url :
    url_from_html none = "" ∧
    (∀ (m p : DependabotPr) (l : List DependabotPr), p.url = m.url →
      l.find? (fun pr => pr.url != m.url && !pr.rebased) ≠ some p) ∧
    (c10SameUrl.rebased = false ∧ c10SameUrl.url = c10Merged.url ∧
      c10SameUrl.number ≠ c10Merged.number ∧
      check_prs envAllOk [c10Merged, c10SameUrl] =
        Except.ok [PlatformCall.approve ("o") ("r") 21,
                   PlatformCall.mergeCall ("o") ("r") 21]) := by
  refine ⟨rfl, ?_, rfl, rfl, by decide, rfl⟩
  intro m p l hpu hf
  have hpred := List.find?_some hf
  simp only [Bool.and_eq_true, bne_iff_ne, Bool.not_eq_true'] at hpred
  exact hpred.1 hpu

/-- C10, witness: a same-URL PR is never the result of the rebase
candidate search. -/
theorem rebase_skip_same_url_wit :
    [c10SameUrl].find? (fun pr => pr.url != c10Merged.url && !pr.rebased) ≠
      some c10SameUrl :=
  rebase_skip_same_url.2.1 c10Merged c10SameUrl [c10SameUrl] rfl
